import Mathlib

/-!
Verification of the `chkmd` link checker core (`src/chkmd/checker.py`)
against its natural-language specification.

The embedding models:
* filesystem paths as lists of components (`FsPath`), with the
  `Path.parent` / `Path.joinpath` / `Path.resolve` operations used by
  `check_local_link`;
* the scheme-extraction behaviour of `urllib.parse.urlparse` needed by
  `check_single_link`;
* the outcome of an `aiohttp` GET (`session.get(url, raise_for_status=True,
  allow_redirects=True)`) as an oracle value: either the status of the final
  response after redirects, or a raised exception classified by whether it
  belongs to the documented `aiohttp.ClientError` hierarchy
  (`ClientConnectorError`, SSL errors, the connect-phase
  `ConnectionTimeoutError`, `ClientConnectorDNSError` and
  `ClientResponseError` are subclasses of `ClientError`; the expiry of the
  per-request total timeout, `ClientTimeout(total=10)`, while the response
  is awaited raises plain `asyncio.TimeoutError`, which is outside that
  hierarchy; `raise_for_status=True` raises `ClientResponseError` exactly
  when the response status is 400 or higher);
* the parsed HTML tree produced by `MarkdownIt().render` + `etree.fromstring`
  as a `Node` tree supplied by a corpus oracle, with `findall(".//a[@href]")`
  / `findall(".//img[@src]")` as a document-order walk;
* `asyncio.gather` over `Except`-valued tasks as `gather` (results in task
  order; the first raised exception propagates).

Python `set`s of strings are modelled as duplicate-free lists (insertion
collapses duplicates); Python `dict`s as insertion-ordered association lists.
-/

namespace Chkmd

/-- An absolute filesystem path, as its list of components from the root. -/
abbrev FsPath := List String

/-- Rendering of a `pathlib.PosixPath` by `str`/f-string interpolation. -/
def pathToString (p : FsPath) : String :=
  "/" ++ String.intercalate "/" p

/-- `LinkCheckResult` dataclass from `checker.py`. -/
structure LinkCheckResult where
  original : String
  is_ok : Bool
  reason : String
deriving DecidableEq

/-! ### Path resolution (`source.parent.joinpath(url).resolve()`) -/

/-- Split a character list at a separator character. -/
def splitChar (sep : Char) : List Char → List (List Char)
  | [] => [[]]
  | c :: cs =>
    match splitChar sep cs with
    | h :: t => if c = sep then [] :: h :: t else (c :: h) :: t
    | [] => if c = sep then [[], []] else [[c]]

/-- The path components of a reference string, as `PurePosixPath` keeps them:
split on `/`, dropping empty components and single-dot components. -/
def urlComponents (url : String) : List String :=
  ((splitChar '/' url.toList).map (fun cs => String.mk cs)).filter
    (fun s => s ≠ "" ∧ s ≠ ".")

/-- Whether the reference denotes an absolute path (`PurePosixPath` is
absolute when the string begins with a slash). -/
def urlIsAbsolute (url : String) : Bool :=
  match url.toList with
  | '/' :: _ => true
  | _ => false

/-- `Path.resolve()` normalisation of `..` components on an absolute
component list (no symlinks in the modelled filesystem; `..` at the root
stays at the root). -/
def normalizePath (comps : List String) : FsPath :=
  comps.foldl (fun acc c => if c = ".." then acc.dropLast else acc ++ [c]) []

/-- `source.parent.joinpath(url).resolve()` from `check_local_link`. -/
def resolveLocal (source : FsPath) (url : String) : FsPath :=
  let base := if urlIsAbsolute url then [] else source.dropLast
  normalizePath (base ++ urlComponents url)

/-! ### The local resolver (`check_local_link`) -/

/-- `url.startswith("file://")`. -/
def hasFileScheme (url : String) : Bool :=
  match url.toList with
  | 'f' :: 'i' :: 'l' :: 'e' :: ':' :: '/' :: '/' :: _ => true
  | _ => false

/-- `url[len("file://"):]` applied when the reference starts with
`file://`, as at the top of `check_local_link`. -/
def stripFileScheme (url : String) : String :=
  if hasFileScheme url then String.mk (url.toList.drop 7) else url

/-- The `for source in sources` loop of `check_local_link`: `url` is already
stripped; the filesystem `fs` is the list of existing paths. -/
def localLoop (fs : List FsPath) (url : String) : List FsPath → LinkCheckResult
  | [] => ⟨url, true, "File exists"⟩
  | source :: rest =>
    let complete_url := resolveLocal source url
    if fs.contains complete_url then localLoop fs url rest
    else ⟨url, false, "File not found: " ++ pathToString complete_url⟩

/-- `check_local_link` from `checker.py`. -/
def check_local_link (fs : List FsPath) (url : String) (sources : List FsPath) :
    LinkCheckResult :=
  localLoop fs (stripFileScheme url) sources

/-! ### Scheme extraction (`urllib.parse.urlparse(link).scheme`) -/

/-- Split a character list at its first colon, returning the parts before
and after it. -/
def splitAtColon : List Char → Option (List Char × List Char)
  | [] => none
  | c :: cs =>
    if c = ':' then some ([], cs)
    else
      match splitAtColon cs with
      | some (pre, post) => some (c :: pre, post)
      | none => none

/-- ASCII letter test (`url[0].isascii() and url[0].isalpha()`). -/
def isAsciiAlpha (c : Char) : Bool :=
  (65 ≤ c.toNat && c.toNat ≤ 90) || (97 ≤ c.toNat && c.toNat ≤ 122)

/-- Membership in `urllib.parse`'s `scheme_chars`
(ASCII letters, digits, `+`, `-`, `.`). -/
def schemeChar (c : Char) : Bool :=
  isAsciiAlpha c || (48 ≤ c.toNat && c.toNat ≤ 57) ||
    c = '+' || c = '-' || c = '.'

/-- ASCII lower-casing of one character, as `str.lower` acts on the ASCII
characters a scheme may contain. -/
def asciiLower (c : Char) : Char :=
  if 65 ≤ c.toNat ∧ c.toNat ≤ 90 then Char.ofNat (c.toNat + 32) else c

/-- A non-empty string of scheme characters starting with an ASCII letter:
the condition under which `urlparse` recognises the text before the first
colon as a scheme. -/
def validSchemeStr (s : String) : Bool :=
  match s.toList with
  | [] => false
  | c :: cs => isAsciiAlpha c && (c :: cs).all schemeChar

/-- ASCII lower-casing of a string. -/
def lowerStr (s : String) : String :=
  String.mk (s.toList.map asciiLower)

/-- `urlparse(url).scheme`: the text before the first colon, lower-cased,
provided it is non-empty, starts with an ASCII letter and consists of
scheme characters; otherwise the empty string. -/
def urlScheme (url : String) : String :=
  match splitAtColon url.toList with
  | some (c :: pre, _) =>
    if isAsciiAlpha c && (c :: pre).all schemeChar then
      String.mk ((c :: pre).map asciiLower)
    else ""
  | _ => ""

/-! ### The remote resolver (`check_http_link`) -/

/-- Classification of an exception raised by the `aiohttp` request
machinery.  The first five constructors are the documented subclasses of
`aiohttp.ClientError` a GET can raise: connection refused
(`ClientConnectorError`), TLS failure (`ClientSSLError`), the
connect-phase timeout that `aiohttp` wraps into `ConnectionTimeoutError`,
DNS resolution failure (`ClientConnectorDNSError`), and the error
`raise_for_status` raises (`ClientResponseError`).
`asyncioTimeoutError` is the plain `asyncio.TimeoutError` that surfaces
when the per-request total timeout (`ClientTimeout(total=10)`) fires while
the response is awaited — it is not part of the `ClientError` hierarchy.
`otherException` stands for any other exception class. -/
inductive PyExcClass where
  | clientConnectorError
  | clientSSLError
  | connectionTimeoutError
  | clientConnectorDNSError
  | clientResponseError
  | asyncioTimeoutError
  | otherException
deriving DecidableEq

/-- Whether the class is a subclass of `aiohttp.ClientError` (per the
documented exception hierarchy the first five constructors are; the plain
`asyncio.TimeoutError` of an expired total timeout is not). -/
def PyExcClass.isClientError : PyExcClass → Bool
  | .asyncioTimeoutError => false
  | .otherException => false
  | _ => true

/-- A raised exception: its class and its `str(e)` rendering. -/
structure PyExc where
  cls : PyExcClass
  msg : String
deriving DecidableEq

/-- `str(e)` of the `ClientResponseError` raised by `raise_for_status` for
a response with the given status. -/
def responseErrorMsg (status : Nat) : String :=
  toString status ++ ", message=..."

/-- The outcome of the underlying GET after redirects are followed: either
the final response's status, or a raised transport exception. -/
inductive HttpOutcome where
  | response (status : Nat)
  | raised (e : PyExc)

/-- `session.get(url, raise_for_status=True, allow_redirects=True)`:
`raise_for_status` raises `ClientResponseError` exactly when the final
status is 400 or higher. -/
def session_get : HttpOutcome → Except PyExc Nat
  | .response st =>
    if 400 ≤ st then .error ⟨.clientResponseError, responseErrorMsg st⟩ else .ok st
  | .raised e => .error e

/-- The `except (ClientError, ClientConnectorDNSError)` clause of
`check_http_link`: an exception is caught exactly when its class is in the
`ClientError` hierarchy (of which `ClientConnectorDNSError` is itself a
member). -/
def isCaught (e : PyExc) : Bool :=
  e.cls.isClientError || e.cls = .clientConnectorDNSError

/-- `check_http_link` from `checker.py`; the GET outcome is supplied by the
network oracle. A propagated exception is an `Except.error`. -/
def check_http_link (outcome : HttpOutcome) (url : String) :
    Except PyExc LinkCheckResult :=
  match session_get outcome with
  | .ok st => .ok ⟨url, true, "Status: " ++ toString st⟩
  | .error e =>
    if isCaught e then .ok ⟨url, false, "Error: " ++ e.msg⟩ else .error e

/-! ### The dispatcher (`check_single_link`) -/

/-- The run environment: the existing filesystem paths and the network
oracle giving each URL's GET outcome. -/
structure Env where
  fs : List FsPath
  http : String → HttpOutcome

/-- `check_single_link` from `checker.py`. -/
def check_single_link (env : Env) (link : String) (sources : List FsPath) :
    Except PyExc LinkCheckResult :=
  let scheme := urlScheme link
  if scheme = "http" ∨ scheme = "https" then
    check_http_link (env.http link) link
  else if scheme = "" ∨ scheme = "file" then
    .ok (check_local_link env.fs link sources)
  else
    .ok ⟨link, false, "Unsupported scheme: " ++ scheme⟩

/-- The classification step of `check_single_link`, as a tagged variant. -/
inductive Route where
  | remote
  | local
  | unsupported (scheme : String)
deriving DecidableEq

/-- The route `check_single_link` selects for a reference. -/
def routeOf (link : String) : Route :=
  let scheme := urlScheme link
  if scheme = "http" ∨ scheme = "https" then .remote
  else if scheme = "" ∨ scheme = "file" then .local
  else .unsupported scheme

/-! ### The reference extractor (`extract_links_from_file`) -/

/-- An element of the parsed HTML tree produced by rendering the markdown
and parsing it with `etree.fromstring(..., etree.HTMLParser())`: a tag, an
attribute map and child elements. -/
inductive Node where
  | mk (tag : String) (attrs : List (String × String)) (children : List Node)

/-- The element's attribute map (`node.attrib`). -/
def Node.attrs : Node → List (String × String)
  | .mk _ a _ => a

/-- The element's children. -/
def Node.children : Node → List Node
  | .mk _ _ c => c

mutual

/-- `document.findall(".//tag[@attr]")` followed by reading `attrib[attr]`
on each hit, restricted to the subtree rooted at one node (the node
included): the attribute values of the matching elements in document
order. -/
def collectAttrs (tag attr : String) : Node → List String
  | .mk t as cs =>
    (if t = tag then
      match List.lookup attr as with
      | some v => [v]
      | none => []
    else []) ++ collectAttrsList tag attr cs

/-- `collectAttrs` over a forest, in order. -/
def collectAttrsList (tag attr : String) : List Node → List String
  | [] => []
  | n :: rest => collectAttrs tag attr n ++ collectAttrsList tag attr rest

end

/-- Errors raised by the extraction phase that the checker does not catch
(they abort the run). -/
inductive PyError where
  | attributeError (msg : String)
deriving DecidableEq

instance {ε α : Type} [DecidableEq ε] [DecidableEq α] :
    DecidableEq (Except ε α) := fun
  | .ok a, .ok b =>
    if h : a = b then .isTrue (by rw [h]) else .isFalse (by simp [h])
  | .error e, .error f =>
    if h : e = f then .isTrue (by rw [h]) else .isFalse (by simp [h])
  | .ok _, .error _ => .isFalse (by simp)
  | .error _, .ok _ => .isFalse (by simp)

/-- Python `set.add` on a set modelled as a duplicate-free list: insertion
order is kept, duplicates collapse. -/
def setAdd (links : List String) (l : String) : List String :=
  if links.contains l then links else links ++ [l]

/-- The attribute access `value.text` that `extract_links_from_file`
performs on `img.attrib["src"]`: the value is already a `str`, which has
no `text` attribute, so this raises `AttributeError`. -/
def strText (_v : String) : Except PyError String :=
  .error (.attributeError "str object has no attribute text")

/-- `extract_links_from_file` from `checker.py`: the corpus oracle gives
the parsed tree of each document; `.//a[@href]` / `.//img[@src]` walk the
descendants of the root element.  The `img` loop feeds each `src` value
through `strText` before adding it, as the source does. -/
def extract_links_from_file (corpus : FsPath → Node) (file : FsPath) :
    Except PyError (FsPath × List String) :=
  let document := corpus file
  let links := (collectAttrsList "a" "href" document.children).foldl setAdd []
  match (collectAttrsList "img" "src" document.children).foldlM
    (fun acc v => do
      let t ← strText v
      pure (setAdd acc t)) links with
  | .error e => .error e
  | .ok links => .ok (file, links)

/-! ### The aggregator (`extract_links`) and the orchestrator
(`check_links`) -/

/-- `asyncio.gather` over tasks whose failure is an exception: results come
back in task order, and a raised exception propagates. -/
def gather {α ε β : Type} (g : α → Except ε β) : List α → Except ε (List β)
  | [] => .ok []
  | x :: xs =>
    match g x with
    | .error e => .error e
    | .ok r =>
      match gather g xs with
      | .error e => .error e
      | .ok rs => .ok (r :: rs)

/-- One step of the merge loop in `extract_links`:
`if link not in links: links[link] = []` then `links[link].append(file)`,
on a dict modelled as an insertion-ordered association list. -/
def addLink : List (String × List FsPath) → String → FsPath →
    List (String × List FsPath)
  | [], link, file => [(link, [file])]
  | (k, fs) :: rest, link, file =>
    if k = link then (k, fs ++ [file]) :: rest
    else (k, fs) :: addLink rest link file

/-- The sequential merge of `extract_links`:
`for file, file_links in results: for link in file_links: ...`. -/
def mergeResults (rs : List (FsPath × List String)) :
    List (String × List FsPath) :=
  rs.foldl (fun acc pr => pr.2.foldl (fun a l => addLink a l pr.1) acc) []

/-- The owning-documents list the merge step builds for one reference: the
first components of the extraction results whose reference set holds it,
in result order. -/
def owners (rs : List (FsPath × List String)) (link : String) : List FsPath :=
  (rs.filter fun pr => decide (link ∈ pr.2)).map Prod.fst

/-- `extract_links` from `checker.py`. -/
def extract_links (corpus : FsPath → Node) (files : List FsPath) :
    Except PyError (List (String × List FsPath)) :=
  match gather (extract_links_from_file corpus) files with
  | .error e => .error e
  | .ok results => .ok (mergeResults results)

/-- `check_links` from `checker.py`: one task per entry of the index (in
dict order), gathered in task order. -/
def check_links (env : Env) (links : List (String × List FsPath)) :
    Except PyExc (List LinkCheckResult) :=
  gather (fun pr => check_single_link env pr.1 pr.2) links

/-- The reference string a `CheckResult` reports for an index key: the key
itself, except that a key routed to the local resolver has a leading
`file://` stripped by `check_local_link` before it builds the result. -/
def reportedRef (link : String) : String :=
  match routeOf link with
  | .local => stripFileScheme link
  | _ => link

/-! ### Concrete fixtures used to instantiate the theorems -/

/-- A network oracle under which every GET returns a 200 response. -/
def allOk : String → HttpOutcome := fun _ => .response 200

/-- A run environment with an empty filesystem. -/
def envEmpty : Env := ⟨[], allOk⟩

/-- A run environment whose filesystem holds `/a/img.png` and `/a/b.md`. -/
def envImg : Env := ⟨[["a", "img.png"], ["a", "b.md"]], allOk⟩

/-- Parsed tree of a document holding one hyperlink and one image. -/
def docWithImg : Node :=
  .mk "html" [] [.mk "body" [] [
    .mk "a" [("href", "a.md")] [],
    .mk "img" [("src", "pic.png")] []]]

/-- Parsed tree of a document holding hyperlinks `x.md` (twice) and
`y.md`. -/
def docXY : Node :=
  .mk "html" [] [.mk "body" [] [
    .mk "a" [("href", "x.md")] [],
    .mk "p" [] [.mk "a" [("href", "x.md")] [], .mk "a" [("href", "y.md")] []]]]

/-- Parsed tree of a document holding the single hyperlink `x.md`. -/
def docX : Node :=
  .mk "html" [] [.mk "body" [] [.mk "a" [("href", "x.md")] []]]

/-- A corpus in which every document parses to `docWithImg`. -/
def corpusImg : FsPath → Node := fun _ => docWithImg

/-- A corpus mapping `/d1.md` to `docXY` and every other path to `docX`. -/
def corpusTwo : FsPath → Node := fun p =>
  if p = ["d1.md"] then docXY else docX

/-! ## Supporting lemmas -/

theorem localLoop_ok_iff (fs : List FsPath) (url : String)
    (sources : List FsPath) :
    (localLoop fs url sources).is_ok = true ↔
      ∀ s ∈ sources, resolveLocal s url ∈ fs := by
  induction sources with
  | nil => simp [localLoop]
  | cons s rest ih =>
    by_cases h : resolveLocal s url ∈ fs
    · simp [localLoop, h, ih]
    · simp [localLoop, h]

theorem localLoop_reason (fs : List FsPath) (url : String) (pre : List FsPath)
    (s : FsPath) (post : List FsPath)
    (hpre : ∀ t ∈ pre, resolveLocal t url ∈ fs)
    (hfail : resolveLocal s url ∉ fs) :
    (localLoop fs url (pre ++ s :: post)).reason =
      "File not found: " ++ pathToString (resolveLocal s url) := by
  induction pre with
  | nil =>
    simp only [List.nil_append, localLoop]
    rw [if_neg (by simpa using hfail)]
  | cons t pre ih =>
    have ht : fs.contains (resolveLocal t url) = true := by
      simpa using hpre t (by simp)
    simp only [List.cons_append, localLoop]
    rw [if_pos ht]
    exact ih fun u hu => hpre u (by simp [hu])

theorem char_toNat_ofNat_of_valid (n : Nat) (h : n.isValidChar) :
    (Char.ofNat n).toNat = n := by
  simp [Char.ofNat, h, Char.ofNatAux, Char.toNat, UInt32.toNat, UInt32.ofNat']

theorem isValidChar_of_small (n : Nat) (h : n < 128) : n.isValidChar :=
  Or.inl (by omega)

theorem asciiLower_of_upper (c : Char) (h : 65 ≤ c.toNat ∧ c.toNat ≤ 90) :
    asciiLower c = Char.ofNat (c.toNat + 32) ∧
      (asciiLower c).toNat = c.toNat + 32 := by
  have he : asciiLower c = Char.ofNat (c.toNat + 32) := by
    simp only [asciiLower]
    rw [if_pos h]
  exact ⟨he, by
    rw [he]
    exact char_toNat_ofNat_of_valid _ (isValidChar_of_small _ (by omega))⟩

theorem asciiLower_of_other (c : Char) (h : ¬(65 ≤ c.toNat ∧ c.toNat ≤ 90)) :
    asciiLower c = c := by
  simp only [asciiLower]
  rw [if_neg h]

theorem asciiLower_idem (c : Char) : asciiLower (asciiLower c) = asciiLower c := by
  by_cases h : 65 ≤ c.toNat ∧ c.toNat ≤ 90
  · obtain ⟨he, ht⟩ := asciiLower_of_upper c h
    rw [he, asciiLower_of_other]
    rw [← he, ht]
    omega
  · rw [asciiLower_of_other c h, asciiLower_of_other c h]

theorem isAsciiAlpha_asciiLower (c : Char) (h : isAsciiAlpha c = true) :
    isAsciiAlpha (asciiLower c) = true := by
  by_cases hu : 65 ≤ c.toNat ∧ c.toNat ≤ 90
  · obtain ⟨_, ht⟩ := asciiLower_of_upper c hu
    simp only [isAsciiAlpha, Bool.or_eq_true, Bool.and_eq_true,
      decide_eq_true_eq]
    right
    omega
  · rw [asciiLower_of_other c hu]
    exact h

theorem schemeChar_asciiLower (c : Char) (h : schemeChar c = true) :
    schemeChar (asciiLower c) = true := by
  by_cases hu : 65 ≤ c.toNat ∧ c.toNat ≤ 90
  · obtain ⟨_, ht⟩ := asciiLower_of_upper c hu
    have halpha : isAsciiAlpha (asciiLower c) = true := by
      simp only [isAsciiAlpha, Bool.or_eq_true, Bool.and_eq_true,
        decide_eq_true_eq]
      right
      omega
    simp [schemeChar, halpha]
  · rw [asciiLower_of_other c hu]
    exact h

theorem schemeChar_ne_colon (c : Char) (h : schemeChar c = true) : c ≠ ':' := by
  intro hc
  subst hc
  simp [schemeChar, isAsciiAlpha] at h

theorem splitAtColon_append (xs ys : List Char) (h : ':' ∉ xs) :
    splitAtColon (xs ++ ':' :: ys) = some (xs, ys) := by
  induction xs with
  | nil => simp [splitAtColon]
  | cons c cs ih =>
    have hc : c ≠ ':' := fun hc => h (by simp [hc])
    simp only [List.cons_append, splitAtColon, List.append_eq]
    rw [if_neg hc, ih fun hm => h (by simp [hm])]

theorem lowerList_idem (cs : List Char) :
    (cs.map asciiLower).map asciiLower = cs.map asciiLower := by
  induction cs with
  | nil => rfl
  | cons c cs ih => simp [ih, asciiLower_idem]

theorem lowerStr_idem (s : String) : lowerStr (lowerStr s) = lowerStr s := by
  simp only [lowerStr]
  exact congrArg String.mk (lowerList_idem s.toList)

theorem validSchemeStr_no_colon (s : String) (h : validSchemeStr s = true) :
    ':' ∉ s.toList := by
  intro hm
  rw [validSchemeStr] at h
  cases hs : s.toList with
  | nil => rw [hs] at hm; exact absurd hm (List.not_mem_nil _)
  | cons c cs =>
    rw [hs] at h hm
    have hall := (Bool.and_eq_true _ _ |>.mp h).2
    rw [List.all_eq_true] at hall
    exact schemeChar_ne_colon _ (hall _ hm) rfl

theorem urlScheme_of_valid (s rest : String) (h : validSchemeStr s = true) :
    urlScheme (s ++ ":" ++ rest) = lowerStr s := by
  have hdata : (s ++ ":" ++ rest).toList = s.toList ++ ':' :: rest.toList := by
    show (s ++ ":" ++ rest).data = s.data ++ ':' :: rest.data
    simp [String.data_append]
  rw [urlScheme, hdata,
    splitAtColon_append s.toList rest.toList (validSchemeStr_no_colon s h)]
  rw [validSchemeStr] at h
  cases hs : s.toList with
  | nil => rw [hs] at h; exact absurd h (by simp)
  | cons c cs =>
    rw [hs] at h
    have h' : (isAsciiAlpha c && (c :: cs).all schemeChar) = true := h
    show (if (isAsciiAlpha c && (c :: cs).all schemeChar) = true then
        String.mk (List.map asciiLower (c :: cs)) else "") = lowerStr s
    rw [if_pos h']
    show String.mk (List.map asciiLower (c :: cs)) = lowerStr s
    rw [lowerStr, hs]

theorem validSchemeStr_lowerStr (s : String) (h : validSchemeStr s = true) :
    validSchemeStr (lowerStr s) = true := by
  rw [validSchemeStr] at h ⊢
  have hdata : (lowerStr s).toList = s.toList.map asciiLower := rfl
  rw [hdata]
  cases hs : s.toList with
  | nil => rw [hs] at h; exact absurd h (by simp)
  | cons c cs =>
    rw [hs] at h
    obtain ⟨halpha, hall⟩ := Bool.and_eq_true _ _ |>.mp h
    rw [List.all_eq_true] at hall
    simp only [List.map_cons, Bool.and_eq_true]
    refine ⟨isAsciiAlpha_asciiLower c halpha, ?_⟩
    rw [List.all_eq_true]
    intro x hx
    rw [← List.map_cons] at hx
    obtain ⟨y, hy, rfl⟩ := List.mem_map.mp hx
    exact schemeChar_asciiLower y (hall y hy)

theorem gather_ok {α ε β : Type} (g : α → Except ε β) (xs : List α)
    (rs : List β) (h : gather g xs = .ok rs) :
    rs.length = xs.length ∧
    ∀ i (hi : i < xs.length) (hi' : i < rs.length),
      g (xs.get ⟨i, hi⟩) = .ok (rs.get ⟨i, hi'⟩) := by
  induction xs generalizing rs with
  | nil =>
    rw [gather] at h
    cases h
    exact ⟨rfl, fun i hi _ => absurd hi (by simp at hi)⟩
  | cons x xs ih =>
    rw [gather] at h
    cases hx : g x with
    | error e => rw [hx] at h; exact absurd h (by simp)
    | ok r =>
      rw [hx] at h
      cases hg : gather g xs with
      | error e => rw [hg] at h; exact absurd h (by simp)
      | ok rs' =>
        rw [hg] at h
        cases h
        obtain ⟨hlen, hget⟩ := ih rs' hg
        refine ⟨by simp [hlen], ?_⟩
        intro i hi hi'
        cases i with
        | zero => simpa using hx
        | succ n =>
          simpa using hget n (by simpa using hi) (by simpa using hi')

theorem localLoop_original (fs : List FsPath) (url : String)
    (sources : List FsPath) :
    (localLoop fs url sources).original = url := by
  induction sources with
  | nil => rfl
  | cons s rest ih =>
    by_cases h : resolveLocal s url ∈ fs
    · simp [localLoop, h, ih]
    · simp [localLoop, h]

theorem check_http_link_original (o : HttpOutcome) (url : String)
    (r : LinkCheckResult) (h : check_http_link o url = .ok r) :
    r.original = url := by
  rw [check_http_link] at h
  cases hs : session_get o with
  | ok st =>
    rw [hs] at h
    have h' : Except.ok
        (⟨url, true, "Status: " ++ toString st⟩ : LinkCheckResult) = .ok r := h
    cases h'
    rfl
  | error e =>
    rw [hs] at h
    have h' : (if isCaught e = true then
        Except.ok (⟨url, false, "Error: " ++ e.msg⟩ : LinkCheckResult)
      else Except.error e) = .ok r := h
    by_cases hc : isCaught e = true
    · rw [if_pos hc] at h'
      cases h'
      rfl
    · rw [if_neg hc] at h'
      exact absurd h' (by simp)

theorem check_single_link_original (env : Env) (link : String)
    (sources : List FsPath) (r : LinkCheckResult)
    (h : check_single_link env link sources = .ok r) :
    r.original = reportedRef link := by
  by_cases h1 : urlScheme link = "http" ∨ urlScheme link = "https"
  · have hroute : routeOf link = .remote := by
      rcases h1 with h1 | h1 <;> simp [routeOf, h1]
    rw [check_single_link] at h
    rw [if_pos h1] at h
    rw [reportedRef, hroute]
    exact check_http_link_original (env.http link) link r h
  · by_cases h2 : urlScheme link = "" ∨ urlScheme link = "file"
    · have hroute : routeOf link = .local := by
        rcases h2 with h2 | h2 <;> simp [routeOf, h2]
      rw [check_single_link] at h
      rw [if_neg h1, if_pos h2] at h
      cases h
      rw [reportedRef, hroute]
      exact localLoop_original env.fs (stripFileScheme link) sources
    · have hroute : routeOf link = .unsupported (urlScheme link) := by
        simp [routeOf, h1, h2]
      rw [check_single_link] at h
      rw [if_neg h1, if_neg h2] at h
      cases h
      rw [reportedRef, hroute]

theorem count_one_of_nodup {α : Type} [BEq α] [LawfulBEq α] (l : List α)
    (hnd : l.Nodup) (a : α) (ha : a ∈ l) : l.count a = 1 := by
  induction l with
  | nil => exact absurd ha (List.not_mem_nil a)
  | cons b m ih =>
    obtain ⟨hb, hm⟩ := List.nodup_cons.mp hnd
    rcases List.mem_cons.mp ha with rfl | ha'
    · have hz : m.count a = 0 := List.count_eq_zero.mpr hb
      simp [List.count_cons, hz]
    · have hne : ¬ a = b := fun hc => hb (hc ▸ ha')
      simp [List.count_cons, hne, ih hm ha']

theorem mem_setAdd (links : List String) (l x : String) :
    x ∈ setAdd links l ↔ x ∈ links ∨ x = l := by
  by_cases h : l ∈ links
  · have hc : links.contains l = true := by simpa using h
    rw [setAdd, if_pos hc]
    constructor
    · exact Or.inl
    · rintro (hx | rfl)
      · exact hx
      · exact h
  · have hc : ¬ links.contains l = true := by simpa using h
    rw [setAdd, if_neg hc]
    simp

theorem nodup_setAdd (links : List String) (l : String) (h : links.Nodup) :
    (setAdd links l).Nodup := by
  by_cases hm : l ∈ links
  · have hc : links.contains l = true := by simpa using hm
    rw [setAdd, if_pos hc]
    exact h
  · have hc : ¬ links.contains l = true := by simpa using hm
    rw [setAdd, if_neg hc]
    simp [List.nodup_append, h, hm]

theorem mem_foldl_setAdd (ls init : List String) (x : String) :
    x ∈ ls.foldl setAdd init ↔ x ∈ init ∨ x ∈ ls := by
  induction ls generalizing init with
  | nil => simp
  | cons l ls ih =>
    simp only [List.foldl_cons]
    rw [ih, mem_setAdd]
    simp only [List.mem_cons]
    tauto

theorem nodup_foldl_setAdd (ls init : List String) (h : init.Nodup) :
    (ls.foldl setAdd init).Nodup := by
  induction ls generalizing init with
  | nil => exact h
  | cons l ls ih =>
    simp only [List.foldl_cons]
    exact ih (setAdd init l) (nodup_setAdd init l h)

theorem extract_ok_result (corpus : FsPath → Node) (f : FsPath)
    (p : FsPath × List String) (h : extract_links_from_file corpus f = .ok p) :
    p = (f, (collectAttrsList "a" "href" (corpus f).children).foldl setAdd []) := by
  cases himg : collectAttrsList "img" "src" (corpus f).children with
  | nil =>
    rw [extract_links_from_file, himg] at h
    have h' : Except.ok
        (f, (collectAttrsList "a" "href" (corpus f).children).foldl setAdd []) =
        .ok p := h
    cases h'
    rfl
  | cons v rest =>
    rw [extract_links_from_file, himg] at h
    have h' : (Except.error (PyError.attributeError
        "str object has no attribute text") :
        Except PyError (FsPath × List String)) = .ok p := h
    exact absurd h' (by simp)

theorem extract_ok_nodup (corpus : FsPath → Node) (f : FsPath)
    (p : FsPath × List String) (h : extract_links_from_file corpus f = .ok p) :
    p.2.Nodup := by
  rw [extract_ok_result corpus f p h]
  exact nodup_foldl_setAdd _ _ List.nodup_nil

theorem gather_mem_fact (corpus : FsPath → Node) (files : List FsPath)
    (rs : List (FsPath × List String))
    (hg : gather (extract_links_from_file corpus) files = .ok rs)
    (pr : FsPath × List String) (hpr : pr ∈ rs) :
    pr.1 ∈ files ∧ extract_links_from_file corpus pr.1 = .ok pr := by
  obtain ⟨hlen, hget⟩ := gather_ok _ files rs hg
  obtain ⟨⟨i, hi⟩, hgi⟩ := List.mem_iff_get.mp hpr
  have he := hget i (by omega) hi
  rw [hgi] at he
  have hfst : pr.1 = files.get ⟨i, by omega⟩ := by
    rw [extract_ok_result corpus _ _ he]
  rw [hfst]
  exact ⟨List.get_mem files i (by omega), he⟩

theorem gather_extract_fst (corpus : FsPath → Node) (files : List FsPath)
    (rs : List (FsPath × List String))
    (hg : gather (extract_links_from_file corpus) files = .ok rs) :
    rs.map Prod.fst = files := by
  obtain ⟨hlen, hget⟩ := gather_ok _ files rs hg
  apply List.ext_get (by simpa using hlen)
  intro i h1 h2
  rw [List.get_map]
  have he := hget i h2 (by simpa using h1)
  rw [extract_ok_result corpus _ _ he]

theorem mem_keys_addLink (links : List (String × List FsPath)) (link : String)
    (file : FsPath) (k : String) :
    k ∈ (addLink links link file).map Prod.fst ↔
      k ∈ links.map Prod.fst ∨ k = link := by
  induction links with
  | nil => simp [addLink]
  | cons pr rest ih =>
    obtain ⟨k', v⟩ := pr
    rw [addLink]
    by_cases h : k' = link
    · rw [if_pos h]
      subst h
      simp
      tauto
    · rw [if_neg h]
      simp only [List.map_cons, List.mem_cons, ih]
      tauto

theorem mem_keys_mergeFile (ls : List String) (f : FsPath)
    (acc : List (String × List FsPath)) (k : String) :
    k ∈ (ls.foldl (fun a l => addLink a l f) acc).map Prod.fst ↔
      k ∈ acc.map Prod.fst ∨ k ∈ ls := by
  induction ls generalizing acc with
  | nil => simp
  | cons l ls ih =>
    simp only [List.foldl_cons]
    rw [ih, mem_keys_addLink]
    simp only [List.mem_cons]
    tauto

theorem mem_keys_mergeResults (rs : List (FsPath × List String)) (k : String) :
    k ∈ (mergeResults rs).map Prod.fst ↔ ∃ pr ∈ rs, k ∈ pr.2 := by
  suffices hgen : ∀ acc : List (String × List FsPath),
      k ∈ (rs.foldl
        (fun acc pr => pr.2.foldl (fun a l => addLink a l pr.1) acc) acc).map
          Prod.fst ↔
      k ∈ acc.map Prod.fst ∨ ∃ pr ∈ rs, k ∈ pr.2 by
    simpa [mergeResults] using hgen []
  induction rs with
  | nil => simp
  | cons pr rs ih =>
    intro acc
    simp only [List.foldl_cons]
    rw [ih, mem_keys_mergeFile]
    simp only [List.mem_cons]
    constructor
    · rintro ((ha | hl) | ⟨q, hq, hk⟩)
      · exact Or.inl ha
      · exact Or.inr ⟨pr, Or.inl rfl, hl⟩
      · exact Or.inr ⟨q, Or.inr hq, hk⟩
    · rintro (ha | ⟨q, (rfl | hq), hk⟩)
      · exact Or.inl (Or.inl ha)
      · exact Or.inl (Or.inr hk)
      · exact Or.inr ⟨q, hq, hk⟩

theorem lookup_addLink (links : List (String × List FsPath)) (link k : String)
    (file : FsPath) :
    List.lookup k (addLink links link file) =
      if k = link then some (((List.lookup k links).getD []) ++ [file])
      else List.lookup k links := by
  induction links with
  | nil =>
    rw [addLink]
    by_cases h : k = link
    · subst h
      simp [List.lookup]
    · rw [if_neg h]
      have hb : (k == link) = false := by simp [h]
      simp [List.lookup, hb]
  | cons pr rest ih =>
    obtain ⟨k', v⟩ := pr
    rw [addLink]
    by_cases h1 : k' = link
    · subst h1
      rw [if_pos rfl]
      by_cases h2 : k = k'
      · subst h2
        simp [List.lookup]
      · have hb : (k == k') = false := by simp [h2]
        simp [List.lookup, hb, h2]
    · rw [if_neg h1]
      by_cases h2 : k = k'
      · subst h2
        simp [List.lookup, h1]
      · have hb : (k == k') = false := by simp [h2]
        simp [List.lookup, hb, ih]

theorem lookup_mergeFile (ls : List String) (hnd : ls.Nodup) (f : FsPath)
    (acc : List (String × List FsPath)) (k : String) :
    List.lookup k (ls.foldl (fun a l => addLink a l f) acc) =
      if k ∈ ls then some (((List.lookup k acc).getD []) ++ [f])
      else List.lookup k acc := by
  induction ls generalizing acc with
  | nil => simp
  | cons l ls ih =>
    obtain ⟨hl, hnd'⟩ := List.nodup_cons.mp hnd
    simp only [List.foldl_cons]
    rw [ih hnd']
    by_cases h1 : k = l
    · subst h1
      rw [if_neg hl, lookup_addLink, if_pos rfl, if_pos (by simp)]
    · rw [lookup_addLink, if_neg h1]
      by_cases h2 : k ∈ ls
      · rw [if_pos h2, if_pos (by simp [h2])]
      · rw [if_neg h2, if_neg (by simp [h1, h2])]

theorem lookup_mergeFold (rs : List (FsPath × List String))
    (hnd : ∀ pr ∈ rs, pr.2.Nodup) (acc : List (String × List FsPath))
    (k : String) :
    List.lookup k (rs.foldl
        (fun acc pr => pr.2.foldl (fun a l => addLink a l pr.1) acc) acc) =
      match List.lookup k acc with
      | some v => some (v ++ owners rs k)
      | none => if owners rs k = [] then none else some (owners rs k) := by
  induction rs generalizing acc with
  | nil =>
    cases h : List.lookup k acc <;> simp [h, owners]
  | cons pr rs ih =>
    simp only [List.foldl_cons]
    rw [ih (fun q hq => hnd q (by simp [hq]))]
    rw [lookup_mergeFile pr.2 (hnd pr (by simp)) pr.1 acc k]
    by_cases hk : k ∈ pr.2
    · have howners : owners (pr :: rs) k = pr.1 :: owners rs k := by
        simp [owners, List.filter_cons, hk]
      rw [if_pos hk, howners]
      cases h : List.lookup k acc with
      | none => simp
      | some v => simp
    · have howners : owners (pr :: rs) k = owners rs k := by
        simp [owners, List.filter_cons, hk]
      rw [if_neg hk, howners]

theorem lookup_mergeResults (rs : List (FsPath × List String))
    (hnd : ∀ pr ∈ rs, pr.2.Nodup) (k : String) :
    List.lookup k (mergeResults rs) =
      if owners rs k = [] then none else some (owners rs k) := by
  rw [mergeResults, lookup_mergeFold rs hnd [] k]
  simp [List.lookup]

/-! ## Claims -/

/-- C1: for a local (empty-scheme or file-scheme) reference with a
non-empty list of owning documents, the result is ok exactly when the
reference resolves to an existing path relative to every owning document's
directory; checking stops at the first owner whose resolved path is
missing, and the reason then reports that owner's resolved absolute
path. -/
theorem local_check_requires_all_sources (env : Env) (link : String)
    (sources : List FsPath)
    (hscheme : urlScheme link = "" ∨ urlScheme link = "file")
    (hne : sources ≠ []) :
    ∃ r, check_single_link env link sources = .ok r ∧
      (r.is_ok = true ↔ ∀ s ∈ sources,
        resolveLocal s (stripFileScheme link) ∈ env.fs) ∧
      ∀ pre s post, sources = pre ++ s :: post →
        (∀ t ∈ pre, resolveLocal t (stripFileScheme link) ∈ env.fs) →
        resolveLocal s (stripFileScheme link) ∉ env.fs →
        r.reason = "File not found: " ++
          pathToString (resolveLocal s (stripFileScheme link)) := by
  have hbranch : check_single_link env link sources =
      .ok (check_local_link env.fs link sources) := by
    rcases hscheme with h | h <;> simp [check_single_link, h]
  refine ⟨check_local_link env.fs link sources, hbranch,
    localLoop_ok_iff env.fs (stripFileScheme link) sources, ?_⟩
  intro pre s post hdecomp hpre hfail
  show (localLoop env.fs (stripFileScheme link) sources).reason = _
  rw [hdecomp]
  exact localLoop_reason env.fs (stripFileScheme link) pre s post hpre hfail

theorem local_check_requires_all_sources_witness :
    ([["a", "b.md"]] : List FsPath) ≠ [] ∧
    ∃ r, check_single_link envEmpty "./img.png" [["a", "b.md"]] = .ok r ∧
      r.is_ok = false ∧ r.reason = "File not found: /a/img.png" := by
  obtain ⟨r, hr, hiff, hreason⟩ :=
    local_check_requires_all_sources envEmpty "./img.png" [["a", "b.md"]]
      (Or.inl (by decide)) (by decide)
  refine ⟨by decide, r, hr, ?_, ?_⟩
  · cases hok : r.is_ok
    · rfl
    · exact absurd (hiff.mp hok) (by decide)
  · rw [hreason [] ["a", "b.md"] [] rfl (by decide) (by decide)]
    decide

/-- C4: the dispatcher routes `http`/`https` references to the remote
resolver, empty-scheme and `file` references to the local resolver, and any
other scheme immediately yields a failed result with reason
`Unsupported scheme: <scheme>`, independently of the environment (so
neither resolver, network nor filesystem is consulted). -/
theorem dispatcher_routes_by_scheme (env env' : Env) (link : String)
    (sources : List FsPath) :
    ((urlScheme link = "http" ∨ urlScheme link = "https") →
      check_single_link env link sources = check_http_link (env.http link) link) ∧
    ((urlScheme link = "" ∨ urlScheme link = "file") →
      check_single_link env link sources =
        .ok (check_local_link env.fs link sources)) ∧
    (urlScheme link ∉ (["http", "https", "", "file"] : List String) →
      check_single_link env link sources =
        .ok ⟨link, false, "Unsupported scheme: " ++ urlScheme link⟩ ∧
      check_single_link env link sources = check_single_link env' link sources) := by
  refine ⟨?_, ?_, ?_⟩
  · rintro (h | h) <;> simp [check_single_link, h]
  · rintro (h | h) <;> simp [check_single_link, h]
  · intro h
    simp only [List.mem_cons, List.not_mem_nil, or_false, not_or] at h
    obtain ⟨h1, h2, h3, h4⟩ := h
    constructor <;> simp [check_single_link, h1, h2, h3, h4]

theorem dispatcher_routes_by_scheme_witness :
    check_single_link envEmpty "ftp://host/file" [] =
      .ok ⟨"ftp://host/file", false, "Unsupported scheme: ftp"⟩ ∧
    check_single_link envEmpty "http://host/x" [] =
      check_http_link (envEmpty.http "http://host/x") "http://host/x" := by
  obtain ⟨hr, hl, hu⟩ :=
    dispatcher_routes_by_scheme envEmpty envImg "ftp://host/file" []
  refine ⟨?_, ?_⟩
  · have := (hu (by decide)).1
    rw [this]
    decide
  · exact (dispatcher_routes_by_scheme envEmpty envImg "http://host/x" []).1
      (Or.inl (by decide))

/-- C6: a remote GET completing with a 2xx status yields an ok result whose
reason reports the numeric status code, and a 404 response yields a failed
result. -/
theorem remote_success_status (url : String) (st : Nat)
    (h2 : 200 ≤ st) (h3 : st < 300) :
    check_http_link (.response st) url =
      .ok ⟨url, true, "Status: " ++ toString st⟩ ∧
    ∃ r, check_http_link (.response 404) url = .ok r ∧ r.is_ok = false := by
  constructor
  · have hlt : ¬ 400 ≤ st := by omega
    simp [check_http_link, session_get, hlt]
  · refine ⟨⟨url, false, "Error: " ++ responseErrorMsg 404⟩, ?_, rfl⟩
    simp [check_http_link, session_get, isCaught, PyExcClass.isClientError]

theorem remote_success_status_witness :
    (200 ≤ 200 ∧ 200 < 300) ∧
    check_http_link (.response 200) "http://host/x" =
      .ok ⟨"http://host/x", true, "Status: 200"⟩ ∧
    ∃ r, check_http_link (.response 404) "http://host/x" = .ok r ∧
      r.is_ok = false :=
  ⟨by omega,
    (remote_success_status "http://host/x" 200 (by omega) (by omega)).1,
    (remote_success_status "http://host/x" 200 (by omega) (by omega)).2⟩

/-- C5 counterexample: two failures of the claim as stated.  A final 304
response is a non-2xx status, yet the remote resolver returns `ok: true`
for it (`raise_for_status` only raises for statuses of 400 and above), so
not every non-2xx status is converted to a failed result; and the
per-request total timeout surfaces as plain `asyncio.TimeoutError`,
outside the `ClientError` hierarchy, so it escapes the resolver's except
clause and propagates instead of being converted. -/
theorem remote_non2xx_not_always_failure :
    (check_http_link (.response 304) "http://host/a" =
      .ok ⟨"http://host/a", true, "Status: 304"⟩ ∧
    ¬(200 ≤ 304 ∧ 304 < 300)) ∧
    check_http_link (.raised ⟨.asyncioTimeoutError, "Timeout"⟩)
        "http://host/a" =
      .error ⟨.asyncioTimeoutError, "Timeout"⟩ :=
  ⟨⟨rfl, by omega⟩, rfl⟩

/-- C5 (amended): the exceptions the remote resolver catches and converts
to a failed result whose reason carries the error description are exactly
those of the `ClientError` hierarchy — connection refused, TLS failure,
DNS resolution failure, the connect-phase timeout `aiohttp` wraps into
`ConnectionTimeoutError`, and the `ClientResponseError` that
`raise_for_status` raises for statuses of 400 and above.  The per-request
total timeout firing while the response is awaited surfaces as plain
`asyncio.TimeoutError`, outside that hierarchy: it propagates and aborts
the run, as does any other exception class.  A final response below
status 400 (2xx or not) yields an ok result. -/
theorem remote_failure_conversion (url : String) (e : PyExc) (st : Nat) :
    (e.cls.isClientError = true →
      check_http_link (.raised e) url = .ok ⟨url, false, "Error: " ++ e.msg⟩) ∧
    (e.cls.isClientError = false → check_http_link (.raised e) url = .error e) ∧
    (check_http_link (.raised ⟨.asyncioTimeoutError, e.msg⟩) url =
      .error ⟨.asyncioTimeoutError, e.msg⟩) ∧
    (400 ≤ st →
      check_http_link (.response st) url =
        .ok ⟨url, false, "Error: " ++ responseErrorMsg st⟩) ∧
    (st < 400 →
      check_http_link (.response st) url =
        .ok ⟨url, true, "Status: " ++ toString st⟩) := by
  obtain ⟨cls, msg⟩ := e
  refine ⟨?_, ?_, ?_, ?_, ?_⟩
  · intro h
    cases cls
    case asyncioTimeoutError => simp [PyExcClass.isClientError] at h
    case otherException => simp [PyExcClass.isClientError] at h
    all_goals simp [check_http_link, session_get, isCaught,
      PyExcClass.isClientError]
  · intro h
    cases cls
    case asyncioTimeoutError =>
      simp [check_http_link, session_get, isCaught,
        PyExcClass.isClientError]
    case otherException =>
      simp [check_http_link, session_get, isCaught,
        PyExcClass.isClientError]
    all_goals simp [PyExcClass.isClientError] at h
  · simp [check_http_link, session_get, isCaught, PyExcClass.isClientError]
  · intro h
    simp [check_http_link, session_get, h, isCaught,
      PyExcClass.isClientError]
  · intro h
    have hlt : ¬ 400 ≤ st := by omega
    simp [check_http_link, session_get, hlt]

/-- C10: the verification phase returns one result per index entry, in
index (insertion) order: the i-th result is exactly the dispatcher's output
for the i-th key and its owning documents, so for fixed resolver outcomes
the output list is fully determined by the index. -/
theorem results_in_key_order (env : Env)
    (links : List (String × List FsPath)) (results : List LinkCheckResult)
    (h : check_links env links = .ok results) :
    results.length = links.length ∧
    ∀ i (hi : i < links.length) (hi' : i < results.length),
      check_single_link env (links.get ⟨i, hi⟩).1 (links.get ⟨i, hi⟩).2 =
        .ok (results.get ⟨i, hi'⟩) := by
  have h' : gather (fun pr => check_single_link env pr.1 pr.2) links =
      .ok results := h
  exact gather_ok (fun pr => check_single_link env pr.1 pr.2) links results h'

theorem results_in_key_order_witness :
    check_links envImg [("http://host/x", []), ("./img.png", [["a", "b.md"]])] =
      .ok [⟨"http://host/x", true, "Status: 200"⟩,
        ⟨"./img.png", true, "File exists"⟩] ∧
    ([⟨"http://host/x", true, "Status: 200"⟩,
        ⟨"./img.png", true, "File exists"⟩] : List LinkCheckResult).length =
      ([("http://host/x", []), ("./img.png", [["a", "b.md"]])] :
        List (String × List FsPath)).length ∧
    check_single_link envImg "http://host/x" [] =
      .ok ⟨"http://host/x", true, "Status: 200"⟩ := by
  have h : check_links envImg
      [("http://host/x", []), ("./img.png", [["a", "b.md"]])] =
      .ok [⟨"http://host/x", true, "Status: 200"⟩,
        ⟨"./img.png", true, "File exists"⟩] := by decide
  obtain ⟨hlen, hget⟩ := results_in_key_order envImg _ _ h
  exact ⟨h, hlen, hget 0 (by decide) (by decide)⟩

/-- C2 counterexample: an index key beginning with `file://` does not
reappear verbatim as the result's reference field: `check_local_link`
strips the prefix and stores the stripped string, so the key `file:///x`
produces a result whose reference field is `/x`. -/
theorem result_reference_not_verbatim :
    check_links envEmpty [("file:///x", [["a", "b.md"]])] =
      .ok [⟨"/x", false, "File not found: /x"⟩] ∧
    ("/x" : String) ≠ "file:///x" :=
  ⟨by decide, by decide⟩

/-- C2 (amended): the verification phase yields exactly one result per
index key, positionally in key order, and each result's reference field is
the key verbatim — except keys routed to the local resolver that begin
with `file://`, whose reference field is the key with that prefix
removed. -/
theorem result_reference_reported (env : Env)
    (links : List (String × List FsPath)) (results : List LinkCheckResult)
    (h : check_links env links = .ok results) :
    results.length = links.length ∧
    ∀ i (hi : i < links.length) (hi' : i < results.length),
      (results.get ⟨i, hi'⟩).original = reportedRef (links.get ⟨i, hi⟩).1 := by
  have h' : gather (fun pr => check_single_link env pr.1 pr.2) links =
      .ok results := h
  obtain ⟨hlen, hget⟩ :=
    gather_ok (fun pr => check_single_link env pr.1 pr.2) links results h'
  refine ⟨hlen, fun i hi hi' => ?_⟩
  exact check_single_link_original env (links.get ⟨i, hi⟩).1
    (links.get ⟨i, hi⟩).2 (results.get ⟨i, hi'⟩) (hget i hi hi')

theorem result_reference_reported_witness :
    reportedRef "file:///x" = "/x" ∧
    (⟨"/x", false, "File not found: /x"⟩ : LinkCheckResult).original =
      reportedRef "file:///x" := by
  have h : check_links envEmpty [("file:///x", [["a", "b.md"]])] =
      .ok [⟨"/x", false, "File not found: /x"⟩] := by decide
  obtain ⟨hlen, hget⟩ := result_reference_reported envEmpty _ _ h
  exact ⟨by decide, hget 0 (by decide) (by decide)⟩

/-- C9: scheme classification is case-insensitive at the dispatcher: the
scheme is lower-cased while parsing, so a reference whose scheme differs
from the lower-case form only in letter case is routed exactly as the
lower-case form is. -/
theorem scheme_case_insensitive (s rest : String)
    (hvalid : validSchemeStr s = true) :
    urlScheme (s ++ ":" ++ rest) = lowerStr s ∧
    routeOf (s ++ ":" ++ rest) = routeOf (lowerStr s ++ ":" ++ rest) := by
  have h1 := urlScheme_of_valid s rest hvalid
  have h2 := urlScheme_of_valid (lowerStr s) rest
    (validSchemeStr_lowerStr s hvalid)
  refine ⟨h1, ?_⟩
  simp only [routeOf]
  rw [h1, h2, lowerStr_idem]

theorem scheme_case_insensitive_witness :
    validSchemeStr "HTTP" = true ∧
    routeOf ("HTTP" ++ ":" ++ "//host/x") =
      routeOf (lowerStr "HTTP" ++ ":" ++ "//host/x") ∧
    routeOf "HTTP://host/x" = Route.remote :=
  ⟨by decide, (scheme_case_insensitive "HTTP" "//host/x" (by decide)).2,
    by decide⟩

theorem remote_failure_conversion_witness :
    check_http_link
        (.raised ⟨.clientConnectorDNSError, "Cannot connect to host bad.invalid"⟩)
        "http://bad.invalid/" =
      .ok ⟨"http://bad.invalid/", false,
        "Error: Cannot connect to host bad.invalid"⟩ ∧
    check_http_link (.response 404) "http://host/a" =
      .ok ⟨"http://host/a", false, "Error: " ++ responseErrorMsg 404⟩ :=
  ⟨(remote_failure_conversion "http://bad.invalid/"
      ⟨.clientConnectorDNSError, "Cannot connect to host bad.invalid"⟩ 0).1
      (by decide),
   (remote_failure_conversion "http://host/a"
      ⟨.clientConnectorDNSError, ""⟩ 404).2.2.2.1 (by omega)⟩

/-- C7: the key set of the index built by aggregation is exactly the union
of the reference sets the extractor produces for the individual input
documents. -/
theorem index_keys_union (corpus : FsPath → Node) (files : List FsPath)
    (index : List (String × List FsPath))
    (h : extract_links corpus files = .ok index) (link : String) :
    link ∈ index.map Prod.fst ↔
      ∃ f ∈ files, ∃ p,
        extract_links_from_file corpus f = .ok p ∧ link ∈ p.2 := by
  rw [extract_links] at h
  cases hg : gather (extract_links_from_file corpus) files with
  | error e =>
    rw [hg] at h
    exact absurd h (by simp)
  | ok rs =>
    rw [hg] at h
    have h' : Except.ok (mergeResults rs) = .ok index := h
    cases h'
    rw [mem_keys_mergeResults]
    constructor
    · rintro ⟨pr, hpr, hlink⟩
      obtain ⟨hmem, hext⟩ := gather_mem_fact corpus files rs hg pr hpr
      exact ⟨pr.1, hmem, pr, hext, hlink⟩
    · rintro ⟨f, hf, p, hp, hlink⟩
      obtain ⟨⟨i, hi⟩, rfl⟩ := List.mem_iff_get.mp hf
      obtain ⟨hlen, hget⟩ := gather_ok _ files rs hg
      have he := hget i hi (by omega)
      rw [hp] at he
      have hpe : p = rs.get ⟨i, by omega⟩ := by
        cases he
        rfl
      exact ⟨rs.get ⟨i, by omega⟩, List.get_mem rs i (by omega), hpe ▸ hlink⟩

theorem index_keys_union_witness :
    "x.md" ∈ (([("x.md", [["d1.md"], ["d2.md"]]), ("y.md", [["d1.md"]])] :
        List (String × List FsPath)).map Prod.fst) ↔
      ∃ f ∈ [["d1.md"], ["d2.md"]], ∃ p,
        extract_links_from_file corpusTwo f = .ok p ∧ "x.md" ∈ p.2 :=
  index_keys_union corpusTwo [["d1.md"], ["d2.md"]]
    [("x.md", [["d1.md"], ["d2.md"]]), ("y.md", [["d1.md"]])]
    (by decide) "x.md"

/-- C8: a reference extracted exactly from the two distinct input documents
D1 and D2 gets an owning-documents list holding exactly D1 and D2, each
once, however many raw occurrences either document contained (the
extractor's per-document sets collapse duplicates before aggregation). -/
theorem owning_documents_exact (corpus : FsPath → Node) (files : List FsPath)
    (index : List (String × List FsPath)) (D1 D2 : FsPath) (link : String)
    (hnodup : files.Nodup)
    (h : extract_links corpus files = .ok index)
    (hmem : ∀ f ∈ files, ∀ p, extract_links_from_file corpus f = .ok p →
      (link ∈ p.2 ↔ (f = D1 ∨ f = D2)))
    (hD1 : D1 ∈ files) (hD2 : D2 ∈ files) (hne : D1 ≠ D2) :
    ∃ l, List.lookup link index = some l ∧
      l.count D1 = 1 ∧ l.count D2 = 1 ∧ ∀ d ∈ l, d = D1 ∨ d = D2 := by
  rw [extract_links] at h
  cases hg : gather (extract_links_from_file corpus) files with
  | error e =>
    rw [hg] at h
    exact absurd h (by simp)
  | ok rs =>
    rw [hg] at h
    have h' : Except.ok (mergeResults rs) = .ok index := h
    cases h'
    have hndp : ∀ pr ∈ rs, pr.2.Nodup := by
      intro pr hpr
      obtain ⟨_, hext⟩ := gather_mem_fact corpus files rs hg pr hpr
      exact extract_ok_nodup corpus pr.1 pr hext
    have hfst : rs.map Prod.fst = files := gather_extract_fst corpus files rs hg
    have hmem_of : ∀ D, D ∈ files → (D = D1 ∨ D = D2) → D ∈ owners rs link := by
      intro D hDf hD12
      obtain ⟨⟨i, hi⟩, hgi⟩ := List.mem_iff_get.mp hDf
      obtain ⟨hlen, hget⟩ := gather_ok _ files rs hg
      have he := hget i hi (by omega)
      have hprfst : (rs.get ⟨i, by omega⟩).1 = D := by
        rw [extract_ok_result corpus _ _ he]
        exact hgi
      have hlink : link ∈ (rs.get ⟨i, by omega⟩).2 :=
        (hmem (files.get ⟨i, hi⟩) (List.get_mem files i hi) _ he).mpr
          (by rw [hgi]; exact hD12)
      exact List.mem_map.mpr ⟨rs.get ⟨i, by omega⟩,
        List.mem_filter.mpr ⟨List.get_mem rs i (by omega),
          by simpa using hlink⟩,
        hprfst⟩
    have hD1mem : D1 ∈ owners rs link := hmem_of D1 hD1 (Or.inl rfl)
    have hD2mem : D2 ∈ owners rs link := hmem_of D2 hD2 (Or.inr rfl)
    have hsub : (owners rs link).Sublist files := by
      rw [← hfst]
      exact (List.filter_sublist rs).map Prod.fst
    have hndo : (owners rs link).Nodup := hnodup.sublist hsub
    have hall : ∀ d ∈ owners rs link, d = D1 ∨ d = D2 := by
      intro d hd
      obtain ⟨pr, hprf, rfl⟩ := List.mem_map.mp hd
      have hprmem := (List.mem_filter.mp hprf).1
      have hlink : link ∈ pr.2 := by
        simpa using (List.mem_filter.mp hprf).2
      obtain ⟨hmemf, hext⟩ := gather_mem_fact corpus files rs hg pr hprmem
      exact (hmem pr.1 hmemf pr hext).mp hlink
    have hnonempty : owners rs link ≠ [] := by
      intro he
      rw [he] at hD1mem
      exact (List.not_mem_nil D1) hD1mem
    refine ⟨owners rs link, ?_, ?_, ?_, hall⟩
    · rw [lookup_mergeResults rs hndp link, if_neg hnonempty]
    · exact count_one_of_nodup (owners rs link) hndo D1 hD1mem
    · exact count_one_of_nodup (owners rs link) hndo D2 hD2mem

theorem owning_documents_exact_witness :
    ∃ l, List.lookup "x.md"
        ([("x.md", [["d1.md"], ["d2.md"]]), ("y.md", [["d1.md"]])] :
          List (String × List FsPath)) = some l ∧
      l.count ["d1.md"] = 1 ∧ l.count ["d2.md"] = 1 ∧
      ∀ d ∈ l, d = ["d1.md"] ∨ d = ["d2.md"] := by
  refine owning_documents_exact corpusTwo [["d1.md"], ["d2.md"]]
    [("x.md", [["d1.md"], ["d2.md"]]), ("y.md", [["d1.md"]])]
    ["d1.md"] ["d2.md"] "x.md" (by decide) (by decide) ?_ (by decide)
    (by decide) (by decide)
  intro f hf p hp
  have hf' : f = ["d1.md"] ∨ f = ["d2.md"] := by
    simpa using hf
  rcases hf' with rfl | rfl
  · have he : extract_links_from_file corpusTwo ["d1.md"] =
        .ok (["d1.md"], ["x.md", "y.md"]) := by decide
    rw [he] at hp
    cases hp
    decide
  · have he : extract_links_from_file corpusTwo ["d2.md"] =
        .ok (["d2.md"], ["x.md"]) := by decide
    rw [he] at hp
    cases hp
    decide

/-- C3 (code evidence): on a document whose markup holds an image node, the
extractor evaluates `img.attrib["src"].text` — an attribute access on the
`str` value — so extraction raises `AttributeError` instead of taking the
`src` string directly as the specification requires. -/
theorem img_extraction_raises :
    extract_links_from_file corpusImg ["doc.md"] =
      .error (.attributeError "str object has no attribute text") := by
  decide

end Chkmd
